import Mathlib

/-!
Verification development for the react-g11n translation core.

The definitions below are a shallow embedding of the TypeScript sources:
`src/core/translator.ts`, `src/core/translation-store.ts`,
`src/core/pluralizer.ts` (Pluralizer and Interpolator),
`src/utils/cldr-rules.ts`, `src/utils/locale-detector.ts`
and the LocaleManager.  JS strings are Lean `String`s, JS objects are
association lists in property-insertion order, JS numbers occurring as
counts are `Int` (all relevant code paths use them integrally), and the
JS remainder operator is `Int.tmod` (truncated, sign of the dividend,
as in JS).  Fallible lookups return `Option`.
-/

set_option autoImplicit false

namespace G11n

/-! ## JavaScript string helpers -/

/-- Split a character list at every character satisfying `p`, keeping empty
segments, as `String.prototype.split` does with a single-character class.
`split p "" = [""]`, `split p "a-b" = ["a","b"]`, `split p "a-" = ["a",""]`. -/
def splitChars (p : Char → Bool) : List Char → List (List Char)
  | [] => [[]]
  | c :: rest =>
    let r := splitChars p rest
    if p c then [] :: r
    else match r with
      | [] => [[c]]
      | s :: ss => (c :: s) :: ss

/-- `String.prototype.split` with a one-character-class separator. -/
def jsSplit (p : Char → Bool) (s : String) : List String :=
  (splitChars p s.toList).map (fun cs => ⟨cs⟩)

/-- ASCII lowering of one character; the JS `toLowerCase` restricted to the
ASCII range, which is the only range that can influence the locale-code
comparisons performed by this library. -/
def jsToLowerChar (c : Char) : Char :=
  if c.toNat ≥ 65 && c.toNat ≤ 90 then Char.ofNat (c.toNat + 32) else c

/-- `String.prototype.toLowerCase` on locale codes. -/
def jsToLower (s : String) : String :=
  ⟨s.toList.map jsToLowerChar⟩

/-- Digit run to its numeric value, the `parseInt` of an all-digit string. -/
def digitsToNat (cs : List Char) : Nat :=
  cs.foldl (fun acc c => acc * 10 + (c.toNat - 48)) 0

/-- JS `String.prototype.trim` (whitespace only, ASCII range suffices here). -/
def jsTrim (cs : List Char) : List Char :=
  ((cs.dropWhile Char.isWhitespace).reverse.dropWhile Char.isWhitespace).reverse

/-! ## CLDR plural rules (`src/utils/cldr-rules.ts`) -/

/-- CLDR plural form vocabulary (`PluralForm` in `types.ts`). -/
inductive PluralForm where
  | zero | one | two | few | many | other
  deriving DecidableEq, Repr, Fintype

/-- The plural-form name as it appears as an object key in a bundle. -/
def PluralForm.name : PluralForm → String
  | .zero => "zero"
  | .one => "one"
  | .two => "two"
  | .few => "few"
  | .many => "many"
  | .other => "other"

/-- The four rule families registered in `pluralRulesMap`. -/
inductive RuleFamily where
  | en | es | fr | ar
  deriving DecidableEq, Repr, Fintype

/-- `englishPluralRules` from `cldr-rules.ts`. -/
def englishPluralRules (count : Int) (ordinal : Bool) : PluralForm :=
  if ordinal then
    let mod10 := count.tmod 10
    let mod100 := count.tmod 100
    if mod10 = 1 ∧ mod100 ≠ 11 then .one
    else if mod10 = 2 ∧ mod100 ≠ 12 then .two
    else if mod10 = 3 ∧ mod100 ≠ 13 then .few
    else .other
  else if count = 1 then .one else .other

/-- `spanishPluralRules` from `cldr-rules.ts`. -/
def spanishPluralRules (count : Int) (ordinal : Bool) : PluralForm :=
  if ordinal then .other
  else if count = 1 then .one else .other

/-- `frenchPluralRules` from `cldr-rules.ts`. -/
def frenchPluralRules (count : Int) (ordinal : Bool) : PluralForm :=
  if ordinal then (if count = 1 then .one else .other)
  else if count = 0 ∨ count = 1 then .one else .other

/-- `arabicPluralRules` from `cldr-rules.ts`. -/
def arabicPluralRules (count : Int) (ordinal : Bool) : PluralForm :=
  if ordinal then .other
  else if count = 0 then .zero
  else if count = 1 then .one
  else if count = 2 then .two
  else
    let mod100 := count.tmod 100
    if 3 ≤ mod100 ∧ mod100 ≤ 10 then .few
    else if 11 ≤ mod100 ∧ mod100 ≤ 99 then .many
    else .other

/-- Apply a rule family's rule function. -/
def ruleOf : RuleFamily → Int → Bool → PluralForm
  | .en => englishPluralRules
  | .es => spanishPluralRules
  | .fr => frenchPluralRules
  | .ar => arabicPluralRules

/-- The separator class of the regex `/[-_]/`. -/
def isLocaleSep (c : Char) : Bool := c = '-' ∨ c = '_'

/-- The normalization inside `getPluralRule`:
`locale.toLowerCase().split(/[-_]/)[0] || 'en'`. -/
def normalizeForRule (locale : String) : String :=
  let first := ((jsSplit isLocaleSep (jsToLower locale)).headD "")
  if first = "" then "en" else first

/-- `getPluralRule`: `pluralRulesMap.get(normalizedLocale) || englishPluralRules`,
expressed as the family the returned function belongs to (unknown locales fall
back to the English family). -/
def getPluralRuleFamily (locale : String) : RuleFamily :=
  match normalizeForRule locale with
  | "en" => .en
  | "es" => .es
  | "fr" => .fr
  | "ar" => .ar
  | _ => .en

/-- `getPluralForm` from `cldr-rules.ts`. -/
def getPluralForm (locale : String) (count : Int) (ordinal : Bool) : PluralForm :=
  ruleOf (getPluralRuleFamily locale) count ordinal

/-- The probe counts of `hasPluralForm` (`[0,1,2,3,4,5,10,11,20,21,100,101]`). -/
def hasFormProbeCounts : List Int := [0, 1, 2, 3, 4, 5, 10, 11, 20, 21, 100, 101]

/-- The probe counts of `getPluralForms`
(`[0,1,2,3,4,5,10,11,20,21,22,23,100,101,102,103]`). -/
def representativeProbeCounts : List Int :=
  [0, 1, 2, 3, 4, 5, 10, 11, 20, 21, 22, 23, 100, 101, 102, 103]

/-- `hasPluralForm` at the family level: scan the test counts and return
`true` on the first count whose form matches. -/
def hasPluralFormF (fam : RuleFamily) (form : PluralForm) (ordinal : Bool) : Bool :=
  hasFormProbeCounts.any (fun c => ruleOf fam c ordinal = form)

/-- `hasPluralForm` from `cldr-rules.ts`. -/
def hasPluralForm (locale : String) (form : PluralForm) (ordinal : Bool) : Bool :=
  hasPluralFormF (getPluralRuleFamily locale) form ordinal

/-- `getPluralForms` at the family level: probe the representative counts and
collect the distinct forms in first-seen order (`Set` insertion order, as
`Array.from` preserves it). -/
def getPluralFormsF (fam : RuleFamily) (ordinal : Bool) : List PluralForm :=
  representativeProbeCounts.foldl
    (fun acc c =>
      let f := ruleOf fam c ordinal
      if f ∈ acc then acc else acc ++ [f])
    []

/-- `getPluralForms` from `cldr-rules.ts`. -/
def getPluralForms (locale : String) (ordinal : Bool) : List PluralForm :=
  getPluralFormsF (getPluralRuleFamily locale) ordinal

/-- Family-level statement of claim C6, decidable by enumeration. -/
theorem pluralForm_probe_family (fam : RuleFamily) (form : PluralForm) (ordinal : Bool) :
    (hasPluralFormF fam form ordinal = true ↔
      ∃ c ∈ representativeProbeCounts, ruleOf fam c ordinal = form) ∧
    (getPluralFormsF fam ordinal).Nodup ∧
    (∀ f : PluralForm, f ∈ getPluralFormsF fam ordinal ↔
      ∃ c ∈ representativeProbeCounts, ruleOf fam c ordinal = f) := by
  revert fam form ordinal
  decide

/-- C6: `hasPluralForm(locale, form, ordinal)` and `getPluralForms(locale, ordinal)`
both enumerate plural forms by probing the locale's rule function over the fixed
representative count set `(0,1,2,3,4,5,10,11,20,21,22,23,100,101,102,103)`:
`hasPluralForm` is true exactly when some probe count yields the form, and
`getPluralForms` returns exactly the distinct forms produced over those probes.
(The source's `hasPluralForm` scans the sub-list without 22, 23, 102, 103; over
the four registered rule families this is observably identical to scanning the
full representative set, which is what this theorem establishes.) -/
theorem cldr_probe_enumeration (locale : String) (form : PluralForm) (ordinal : Bool) :
    (hasPluralForm locale form ordinal = true ↔
      ∃ c ∈ representativeProbeCounts, getPluralForm locale c ordinal = form) ∧
    (getPluralForms locale ordinal).Nodup ∧
    (∀ f : PluralForm, f ∈ getPluralForms locale ordinal ↔
      ∃ c ∈ representativeProbeCounts, getPluralForm locale c ordinal = f) :=
  pluralForm_probe_family (getPluralRuleFamily locale) form ordinal

/-! ## Bundle values (`TranslationNamespace` in `types.ts`)

`interface TranslationNamespace { [key: string]: string | TranslationNamespace }`:
a bundle node is either a string leaf or a nested object; plural-form and
grammatical-context objects are stored through the same shape. -/

/-- A value stored in a translation bundle: a string leaf or a nested object
(association list in property order). -/
inductive TransValue where
  | str (s : String)
  | obj (fields : List (String × TransValue))

/-- A loaded bundle: the root object of a `TranslationNamespace`. -/
abbrev Bundle := List (String × TransValue)

/-- JS property access `o[k]` on an object literal: first binding wins. -/
def lookupField (fields : List (String × TransValue)) (k : String) : Option TransValue :=
  match fields with
  | [] => none
  | (k', v) :: rest => if k' = k then some v else lookupField rest k

/-- JS `String(v)` on a bundle value (objects print as `[object Object]`). -/
def TransValue.jsString : TransValue → String
  | .str s => s
  | .obj _ => "[object Object]"

/-- JS truthiness of a bundle value: the empty string is the only falsy one. -/
def TransValue.truthy : TransValue → Bool
  | .str s => s ≠ ""
  | .obj _ => true

/-- The descent loop shared by `resolveKey` and `getRawData` in
`translation-store.ts`: follow the dot-path segments, failing on a missing
property or on descending into a non-object. -/
def descendSegs : Option TransValue → List String → Option TransValue
  | cur, [] => cur
  | none, _ :: _ => none
  | some (.str _), _ :: _ => none
  | some (.obj fields), k :: rest => descendSegs (lookupField fields k) rest

/-- Dot-path split: `key.split('.')`. -/
def dotSegs (key : String) : List String :=
  jsSplit (fun c => c = '.') key

/-- `TranslationStore.resolveKey`: descend by the dot path and keep only a
string leaf; an object leaf (plural forms) yields `undefined` so the
Translator can resolve it. -/
def resolveKeyValue (data : Bundle) (key : String) : Option String :=
  match descendSegs (some (.obj data)) (dotSegs key) with
  | some (.str s) => some s
  | some (.obj _) => none
  | none => none

/-! ## TranslationStore (`src/core/translation-store.ts`) -/

/-- The store's mutable fields: `translations` (locale → namespace → bundle),
the keys of `loadingPromises`, and the `missingKeys` set (kept as a list in
insertion order; `Set.add` is insert-if-absent). -/
structure StoreState where
  translations : List (String × List (String × Bundle))
  loading : List String
  missingKeys : List String

/-- A store with nothing loaded, as built by the constructor. -/
def StoreState.init : StoreState := ⟨[], [], []⟩

/-- First-match association-list lookup (the JS `Map.get`). -/
def alistGet {α : Type} (l : List (String × α)) (k : String) : Option α :=
  match l with
  | [] => none
  | (k', v) :: rest => if k' = k then some v else alistGet rest k

/-- `Map.set`: replace the binding if present, otherwise append. -/
def alistSet {α : Type} (l : List (String × α)) (k : String) (v : α) :
    List (String × α) :=
  match l with
  | [] => [(k, v)]
  | (k', v') :: rest => if k' = k then (k, v) :: rest else (k', v') :: alistSet rest k v

/-- `TranslationStore.getNamespaceData`. -/
def getNamespaceData (st : StoreState) (locale ns : String) : Option Bundle :=
  match alistGet st.translations locale with
  | none => none
  | some localeData => alistGet localeData ns

/-- `TranslationStore.hasNamespace`. -/
def hasNamespace (st : StoreState) (locale ns : String) : Bool :=
  (getNamespaceData st locale ns).isSome

/-- The `locale:namespace:key` ledger identifier. -/
def missingKeyId (locale ns key : String) : String :=
  locale ++ ":" ++ ns ++ ":" ++ key

/-- `TranslationStore.trackMissingKey`: `Set.add`, an insert-if-absent. -/
def trackMissingKey (st : StoreState) (id : String) : StoreState :=
  { st with missingKeys := if id ∈ st.missingKeys then st.missingKeys else st.missingKeys ++ [id] }

/-- `TranslationStore.getTranslation`: result together with the updated store
(the only mutation is the missing-key ledger). -/
def getTranslation (st : StoreState) (locale ns key : String) :
    Option String × StoreState :=
  match getNamespaceData st locale ns with
  | none => (none, st)
  | some data =>
    match resolveKeyValue data key with
    | some s => (some s, st)
    | none => (none, trackMissingKey st (missingKeyId locale ns key))

/-- `TranslationStore.getRawData`: same descent, raw leaf, no tracking. -/
def getRawData (st : StoreState) (locale ns key : String) : Option TransValue :=
  match getNamespaceData st locale ns with
  | none => none
  | some data => descendSegs (some (.obj data)) (dotSegs key)

/-- `TranslationStore.cacheTranslation`. -/
def cacheTranslation (st : StoreState) (locale ns : String) (data : Bundle) : StoreState :=
  let localeData := (alistGet st.translations locale).getD []
  { st with translations := alistSet st.translations locale (alistSet localeData ns data) }

theorem trackMissingKey_translations (st : StoreState) (id : String) :
    (trackMissingKey st id).translations = st.translations := rfl

theorem getNamespaceData_trackMissingKey (st : StoreState) (id locale ns : String) :
    getNamespaceData (trackMissingKey st id) locale ns = getNamespaceData st locale ns := rfl

theorem trackMissingKey_mem (st : StoreState) (id : String) :
    id ∈ (trackMissingKey st id).missingKeys := by
  unfold trackMissingKey
  by_cases h : id ∈ st.missingKeys <;> simp [h]

theorem trackMissingKey_count (st : StoreState) (id : String)
    (hnd : st.missingKeys.Nodup) :
    (trackMissingKey st id).missingKeys.count id = 1 := by
  unfold trackMissingKey
  by_cases h : id ∈ st.missingKeys
  · simp only [h, if_pos]
    exact List.count_eq_one_of_mem hnd h
  · simp only [h, if_neg, not_false_iff]
    rw [List.count_append, List.count_eq_zero_of_not_mem h]
    simp

theorem trackMissingKey_idem (st : StoreState) (id : String) :
    trackMissingKey (trackMissingKey st id) id = trackMissingKey st id := by
  unfold trackMissingKey
  by_cases h : id ∈ st.missingKeys <;> simp [h]

/-- C3: on a cached bundle, `getTranslation` returns the leaf exactly when the
dot path resolves to a string leaf (leaving the store untouched); otherwise it
returns `undefined` and the ledger holds exactly one entry for the
`locale:namespace:path` identifier, and calling it again changes nothing
(idempotent dedup).  The `Nodup` hypothesis is the `Set` representation
invariant of `missingKeys`, which every operation preserves. -/
theorem getTranslation_cached_spec (st : StoreState) (locale ns key : String) (data : Bundle)
    (hdata : getNamespaceData st locale ns = some data)
    (hnd : st.missingKeys.Nodup) :
    (∀ s, resolveKeyValue data key = some s →
      getTranslation st locale ns key = (some s, st)) ∧
    (resolveKeyValue data key = none →
      (getTranslation st locale ns key).1 = none ∧
      ((getTranslation st locale ns key).2).missingKeys.count (missingKeyId locale ns key) = 1 ∧
      getTranslation ((getTranslation st locale ns key).2) locale ns key =
        (none, (getTranslation st locale ns key).2)) := by
  constructor
  · intro s hs
    simp only [getTranslation, hdata, hs]
  · intro hmiss
    simp only [getTranslation, hdata, hmiss, getNamespaceData_trackMissingKey,
      trackMissingKey_idem]
    exact ⟨trivial, trackMissingKey_count st _ hnd, trivial⟩

/-- Witness for `getTranslation_cached_spec`: a one-key bundle, hit on the
string leaf `a.b` and miss (with a single deduplicated ledger entry) on the
absent path `a.c`. -/
theorem getTranslation_cached_spec_witness :
    (getTranslation ⟨[("en", [("common", [("a", .obj [("b", .str "hi")])])])], [], []⟩
        "en" "common" "a.b" = (some "hi", ⟨[("en", [("common", [("a", .obj [("b", .str "hi")])])])], [], []⟩)) ∧
    ((getTranslation ⟨[("en", [("common", [("a", .obj [("b", .str "hi")])])])], [], []⟩
        "en" "common" "a.c").1 = none) := by
  have h := getTranslation_cached_spec
    ⟨[("en", [("common", [("a", .obj [("b", .str "hi")])])])], [], []⟩
    "en" "common" "a.b" [("a", .obj [("b", .str "hi")])] rfl (by decide)
  have h2 := getTranslation_cached_spec
    ⟨[("en", [("common", [("a", .obj [("b", .str "hi")])])])], [], []⟩
    "en" "common" "a.c" [("a", .obj [("b", .str "hi")])] rfl (by decide)
  exact ⟨h.1 "hi" rfl, (h2.2 rfl).1⟩

/-- C9: with no cached bundle for the pair, `getTranslation` returns
`undefined` and leaves the store — in particular the missing-key ledger —
completely unchanged. -/
theorem getTranslation_uncached_frame (st : StoreState) (locale ns key : String)
    (h : getNamespaceData st locale ns = none) :
    getTranslation st locale ns key = (none, st) := by
  unfold getTranslation
  rw [h]

/-- Witness for `getTranslation_uncached_frame` at the empty store. -/
theorem getTranslation_uncached_frame_witness :
    getTranslation StoreState.init "en" "common" "greeting" = (none, StoreState.init) :=
  getTranslation_uncached_frame StoreState.init "en" "common" "greeting" rfl

/-! ## Deduplicated namespace loading (`loadNamespace` / `performLoad`)

JavaScript is single-threaded between `await` points, so each synchronous
prefix of `loadNamespace` and the completion of a pending load are atomic
steps.  `callLoadNamespace` is the synchronous prefix run by one caller:
return at once when the bundle is cached, join the in-flight promise when
`loadingPromises` has the key, and otherwise invoke the loader, record the
in-flight key and await.  `completeLoad` is the resumption of `performLoad`
when the loader settles with `data` (`{}` for a failed load): cache the
result, delete the promise key, and resume every caller awaiting it; a
resumed caller observes the bundle now cached for the pair. -/

/-- The `${locale}:${namespace}` deduplication key. -/
def loadKey (locale ns : String) : String := locale ++ ":" ++ ns

/-- The loading system state: the store, the loader-invocation log, the
callers parked on each in-flight key, and the callers that have returned
together with the bundle they observe. -/
structure LoadState where
  store : StoreState
  loaderCalls : List (String × String)
  waiters : List (String × List Nat)
  completed : List (Nat × Bundle)

/-- A fresh system: empty store, no loads, no callers. -/
def LoadState.init : LoadState := ⟨StoreState.init, [], [], []⟩

/-- Park a caller on the promise for `key`. -/
def addWaiter (ws : List (String × List Nat)) (key : String) (caller : Nat) :
    List (String × List Nat) :=
  alistSet ws key ((alistGet ws key).getD [] ++ [caller])

/-- One caller's synchronous run of `loadNamespace(locale, ns)`. -/
def callLoadNamespace (locale ns : String) (caller : Nat) (st : LoadState) : LoadState :=
  if hasNamespace st.store locale ns then
    { st with completed :=
        st.completed ++ [(caller, (getNamespaceData st.store locale ns).getD [])] }
  else if loadKey locale ns ∈ st.store.loading then
    { st with waiters := addWaiter st.waiters (loadKey locale ns) caller }
  else
    { st with
      store := { st.store with loading := st.store.loading ++ [loadKey locale ns] },
      loaderCalls := st.loaderCalls ++ [(locale, ns)],
      waiters := addWaiter st.waiters (loadKey locale ns) caller }

/-- The loader for `(locale, ns)` settles with `data`: `performLoad` caches it,
the promise resolves and is deleted, and every parked caller resumes,
observing the bundle cached for the pair. -/
def completeLoad (locale ns : String) (data : Bundle) (st : LoadState) : LoadState :=
  let key := loadKey locale ns
  let resumed := (alistGet st.waiters key).getD []
  let cached := cacheTranslation st.store locale ns data
  { store := { cached with loading := cached.loading.erase key },
    loaderCalls := st.loaderCalls,
    waiters := alistSet st.waiters key [],
    completed := st.completed ++
      resumed.map (fun i => (i, (getNamespaceData cached locale ns).getD [])) }

theorem alistGet_set_same {α : Type} (l : List (String × α)) (k : String) (v : α) :
    alistGet (alistSet l k v) k = some v := by
  induction l with
  | nil => simp [alistGet, alistSet]
  | cons hd tl ih =>
    obtain ⟨k', v'⟩ := hd
    by_cases h : k' = k <;> simp [alistGet, alistSet, h, ih]

theorem getNamespaceData_cacheTranslation (st : StoreState) (locale ns : String)
    (data : Bundle) :
    getNamespaceData (cacheTranslation st locale ns data) locale ns = some data := by
  simp [getNamespaceData, cacheTranslation, alistGet_set_same]

/-- The state reached while exactly one load for `(locale, ns)` is in flight
with `parked` callers awaiting it, starting from a fresh system. -/
def inflightState (locale ns : String) (parked : List Nat) : LoadState :=
  ⟨⟨[], [loadKey locale ns], []⟩, [(locale, ns)], [(loadKey locale ns, parked)], []⟩

theorem callLoadNamespace_inflight (locale ns : String) (caller : Nat)
    (parked : List Nat) :
    callLoadNamespace locale ns caller (inflightState locale ns parked) =
      inflightState locale ns (parked ++ [caller]) := by
  simp [callLoadNamespace, inflightState, hasNamespace, getNamespaceData, alistGet,
    addWaiter, alistSet]

theorem foldl_callLoadNamespace_inflight (locale ns : String) (callers : List Nat)
    (parked : List Nat) :
    callers.foldl (fun st i => callLoadNamespace locale ns i st)
        (inflightState locale ns parked) =
      inflightState locale ns (parked ++ callers) := by
  induction callers generalizing parked with
  | nil => simp
  | cons hd tl ih =>
    rw [List.foldl_cons, callLoadNamespace_inflight, ih]
    simp

/-- C2: from a fresh system, when `k` callers invoke `loadNamespace(L, N)`
while the first caller's load is still in flight, the loader is invoked
exactly once, and once the load settles every one of the `k` callers observes
the identical resulting cached bundle. -/
theorem loadNamespace_dedup (locale ns : String) (first : Nat) (rest : List Nat)
    (data : Bundle) :
    (completeLoad locale ns data
        (rest.foldl (fun st i => callLoadNamespace locale ns i st)
          (callLoadNamespace locale ns first LoadState.init))).loaderCalls =
      [(locale, ns)] ∧
    (completeLoad locale ns data
        (rest.foldl (fun st i => callLoadNamespace locale ns i st)
          (callLoadNamespace locale ns first LoadState.init))).completed =
      (first :: rest).map (fun i => (i, data)) := by
  have hfirst : callLoadNamespace locale ns first LoadState.init =
      inflightState locale ns [first] := by
    simp [callLoadNamespace, LoadState.init, StoreState.init, inflightState,
      hasNamespace, getNamespaceData, alistGet, addWaiter, alistSet]
  rw [hfirst, foldl_callLoadNamespace_inflight]
  constructor
  · rfl
  · simp [completeLoad, inflightState, alistGet, getNamespaceData_cacheTranslation]

/-! ## Locale normalization (`src/utils/locale-detector.ts`) -/

/-- `normalizeLocale`: empty in, empty out; otherwise
`locale.toLowerCase().split(/[-_]/)[0] || ''`. -/
def normalizeLocale (locale : String) : String :=
  if locale = "" then ""
  else (jsSplit isLocaleSep (jsToLower locale)).headD ""

/-- `isLocaleSupported` from `locale-detector.ts`: normalize, then membership. -/
def localeSupported (locale : String) (supportedLocales : List String) : Bool :=
  normalizeLocale locale ∈ supportedLocales

theorem toNat_ofNat_valid {n : Nat} (h : n < 55296) : (Char.ofNat n).toNat = n := by
  unfold Char.ofNat
  rw [dif_pos (Or.inl h)]
  simp [Char.ofNatAux, Char.toNat, UInt32.toNat, UInt32.ofNatCore]

theorem jsToLowerChar_idem (c : Char) :
    jsToLowerChar (jsToLowerChar c) = jsToLowerChar c := by
  unfold jsToLowerChar
  by_cases h : (c.toNat ≥ 65 && c.toNat ≤ 90) = true
  · obtain ⟨h1, h2⟩ : 65 ≤ c.toNat ∧ c.toNat ≤ 90 := by simpa using h
    have hv : (Char.ofNat (c.toNat + 32)).toNat = c.toNat + 32 :=
      toNat_ofNat_valid (by omega)
    rw [if_pos h, if_neg (by simp [hv]; omega)]
  · rw [if_neg h, if_neg h]

theorem toList_mk (l : List Char) : (⟨l⟩ : String).toList = l := rfl

theorem map_fixed {α : Type} (f : α → α) (l : List α) (h : ∀ c ∈ l, f c = c) :
    l.map f = l := by
  induction l with
  | nil => rfl
  | cons hd tl ih =>
    rw [List.map_cons, h hd (List.mem_cons_self hd tl),
      ih (fun c hc => h c (List.mem_cons_of_mem hd hc))]

theorem mk_toList (s : String) : (⟨s.toList⟩ : String) = s := rfl

theorem jsToLower_fixed (s : String)
    (h : ∀ c ∈ s.toList, jsToLowerChar c = c) : jsToLower s = s := by
  unfold jsToLower
  rw [map_fixed _ _ h, mk_toList]

theorem splitChars_ne_nil (p : Char → Bool) (l : List Char) :
    splitChars p l ≠ [] := by
  induction l with
  | nil => simp [splitChars]
  | cons hd tl ih =>
    simp only [splitChars]
    by_cases hp : p hd
    · simp [hp]
    · rw [if_neg hp]
      rcases hrec : splitChars p tl with _ | ⟨s0, ss⟩
      · exact absurd hrec ih
      · simp

theorem splitChars_sep_free (p : Char → Bool) (l : List Char) :
    ∀ s ∈ splitChars p l, ∀ c ∈ s, p c = false := by
  induction l with
  | nil => simp [splitChars]
  | cons hd tl ih =>
    intro s hs
    simp only [splitChars] at hs
    by_cases hp : p hd
    · rw [if_pos hp] at hs
      rcases List.mem_cons.mp hs with h | h
      · simp [h]
      · exact ih s h
    · rw [if_neg hp] at hs
      rcases hrec : splitChars p tl with _ | ⟨s0, ss⟩
      · exact absurd hrec (splitChars_ne_nil p tl)
      · rw [hrec] at hs
        rcases List.mem_cons.mp hs with h | h
        · subst h
          intro c hc
          rcases List.mem_cons.mp hc with h | h
          · rw [h]
            exact Bool.not_eq_true (p hd) ▸ hp
          · exact ih s0 (hrec ▸ List.mem_cons_self s0 ss) c h
        · exact ih s (hrec ▸ List.mem_cons_of_mem s0 h)

theorem splitChars_mem_subset (p : Char → Bool) (l : List Char) :
    ∀ s ∈ splitChars p l, ∀ c ∈ s, c ∈ l := by
  induction l with
  | nil => simp [splitChars]
  | cons hd tl ih =>
    intro s hs
    simp only [splitChars] at hs
    by_cases hp : p hd
    · rw [if_pos hp] at hs
      rcases List.mem_cons.mp hs with h | h
      · simp [h]
      · exact fun c hc => List.mem_cons_of_mem hd (ih s h c hc)
    · rw [if_neg hp] at hs
      rcases hrec : splitChars p tl with _ | ⟨s0, ss⟩
      · exact absurd hrec (splitChars_ne_nil p tl)
      · rw [hrec] at hs
        rcases List.mem_cons.mp hs with h | h
        · subst h
          intro c hc
          rcases List.mem_cons.mp hc with h | h
          · simp [h]
          · exact List.mem_cons_of_mem hd
              (ih s0 (hrec ▸ List.mem_cons_self s0 ss) c h)
        · exact fun c hc => List.mem_cons_of_mem hd
            (ih s (hrec ▸ List.mem_cons_of_mem s0 h) c hc)

theorem splitChars_of_sep_free (p : Char → Bool) (l : List Char)
    (h : ∀ c ∈ l, p c = false) : splitChars p l = [l] := by
  induction l with
  | nil => simp [splitChars]
  | cons hd tl ih =>
    have hhd : p hd = false := h hd (List.mem_cons_self hd tl)
    have htl : splitChars p tl = [tl] :=
      ih (fun c hc => h c (List.mem_cons_of_mem hd hc))
    simp [splitChars, hhd, htl]

theorem jsSplit_ne_nil (p : Char → Bool) (s : String) : jsSplit p s ≠ [] := by
  unfold jsSplit
  intro h
  exact splitChars_ne_nil p s.toList (List.map_eq_nil_iff.mp h)

theorem jsSplit_toList (p : Char → Bool) (s : String) :
    (jsSplit p s).map String.toList = splitChars p s.toList := by
  unfold jsSplit
  rw [List.map_map]
  exact map_fixed _ _ (fun cs _ => toList_mk cs)

/-- Every character of `normalizeLocale`'s output is lowercase-fixed and is
not a separator, so normalization is idempotent. -/
theorem normalizeLocale_idem (locale : String) :
    normalizeLocale (normalizeLocale locale) = normalizeLocale locale := by
  by_cases h0 : locale = ""
  · simp [normalizeLocale, h0]
  · unfold normalizeLocale
    rw [if_neg h0]
    rcases hsplit : jsSplit isLocaleSep (jsToLower locale) with _ | ⟨first, restSegs⟩
    · exact absurd hsplit (jsSplit_ne_nil _ _)
    · simp only [List.headD_cons]
      by_cases hfe : first = ""
      · simp [hfe]
      · rw [if_neg hfe]
        have hmem : first.toList ∈ splitChars isLocaleSep (jsToLower locale).toList := by
          rw [← jsSplit_toList, hsplit]
          exact List.mem_map_of_mem String.toList (List.mem_cons_self first restSegs)
        have hsepfree : ∀ c ∈ first.toList, isLocaleSep c = false :=
          splitChars_sep_free _ _ _ hmem
        have hlowfixed : ∀ c ∈ first.toList, jsToLowerChar c = c := by
          intro c hc
          have hcl : c ∈ (jsToLower locale).toList :=
            splitChars_mem_subset _ _ _ hmem c hc
          have hmapped : c ∈ (locale.toList.map jsToLowerChar) := by
            simpa [jsToLower] using hcl
          obtain ⟨c0, _, hc0⟩ := List.mem_map.mp hmapped
          rw [← hc0, jsToLowerChar_idem]
        rw [jsToLower_fixed first hlowfixed]
        unfold jsSplit
        rw [splitChars_of_sep_free _ _ hsepfree]
        simp [hfe]

theorem localeSupported_normalize (locale : String) (supported : List String) :
    localeSupported (normalizeLocale locale) supported =
      localeSupported locale supported := by
  unfold localeSupported
  rw [normalizeLocale_idem]

/-! ## LocaleManager -/

/-- The observable side effects of `setLocale`: the `persistLocale` write
attempt and each synchronous listener invocation, in program order.
Listeners are identified by reference; the model names them by `Nat`. -/
inductive LMEvent where
  | persistAttempt (locale : String)
  | notified (listener : Nat) (locale : String)
  deriving DecidableEq, Repr

/-- The LocaleManager's mutable state: the current locale, the configured
locale sets, and the `Set` of listeners (insertion order, no duplicates —
maintained by `subscribe`). -/
structure LMState where
  currentLocale : String
  supportedLocales : List String
  fallbackLocale : String
  listeners : List Nat
  deriving DecidableEq, Repr

/-- `LocaleManager.setLocale`: normalize, validate (`InvalidLocaleError`
carries the normalized code), early-return when already current, otherwise
update the state, attempt persistence, then notify every listener in
registration order (`notifyListeners` swallows listener exceptions, so each
listener is invoked exactly once regardless). -/
def setLocale (st : LMState) (locale : String) :
    Except String (LMState × List LMEvent) :=
  let normalized := normalizeLocale locale
  if ¬ localeSupported normalized st.supportedLocales then
    .error normalized
  else if normalized = st.currentLocale then
    .ok (st, [])
  else
    let st' := { st with currentLocale := normalized }
    .ok (st', .persistAttempt normalized ::
      st'.listeners.map (fun l => .notified l normalized))

/-- `LocaleManager.subscribe`: `Set.add`, an insert-if-absent. -/
def subscribe (st : LMState) (listener : Nat) : LMState :=
  { st with listeners :=
      if listener ∈ st.listeners then st.listeners else st.listeners ++ [listener] }

/-- The closure returned by `subscribe`: `Set.delete` of the same reference
(every unsubscribe function returned for this listener deletes that one
reference). -/
def unsubscribe (st : LMState) (listener : Nat) : LMState :=
  { st with listeners := st.listeners.erase listener }

/-- C5: setting a supported locale whose normalized form is already current is
a no-op — `setLocale` succeeds with zero events (so no subscriber
notification and no persistence write) and an unchanged state. -/
theorem setLocale_current_noop (st : LMState) (code : String)
    (hsup : localeSupported code st.supportedLocales = true)
    (heq : normalizeLocale code = st.currentLocale) :
    setLocale st code = .ok (st, ([] : List LMEvent)) := by
  unfold setLocale
  have hsup' : localeSupported (normalizeLocale code) st.supportedLocales = true := by
    unfold localeSupported at hsup ⊢
    rw [normalizeLocale_idem]
    exact hsup
  rw [if_neg (by simp [hsup']), if_pos heq]

/-- Witness for `setLocale_current_noop`: requesting `en-US` when the current
locale is `en`. -/
theorem setLocale_current_noop_witness :
    setLocale ⟨"en", ["en", "fr"], "en", [0, 1]⟩ "en-US" =
      .ok (⟨"en", ["en", "fr"], "en", [0, 1]⟩, ([] : List LMEvent)) :=
  setLocale_current_noop ⟨"en", ["en", "fr"], "en", [0, 1]⟩ "en-US"
    (by decide) (by decide)

theorem count_notified_map (listeners : List Nat) (l : Nat) (loc : String) :
    (listeners.map (fun i => LMEvent.notified i loc)).count (LMEvent.notified l loc) =
      listeners.count l := by
  induction listeners with
  | nil => rfl
  | cons hd tl ih =>
    by_cases h : hd = l
    · simp [h, List.count_cons, ih]
    · simp [List.count_cons, h, ih]

/-- C10: listener registrations form a set — re-subscribing the same listener
adds no second registration, a subsequent (successful, locale-changing)
`setLocale` emits exactly one notification event for that listener, and one
call to the returned unsubscribe function removes it entirely.  The `Nodup`
hypothesis is the `Set` representation invariant, which `subscribe`
preserves. -/
theorem subscribe_set_semantics (st : LMState) (l : Nat) (code : String)
    (hnd : st.listeners.Nodup)
    (hsup : localeSupported code st.supportedLocales = true)
    (hne : normalizeLocale code ≠ st.currentLocale) :
    (subscribe (subscribe st l) l).listeners = (subscribe st l).listeners ∧
    (∃ st' events, setLocale (subscribe (subscribe st l) l) code = .ok (st', events) ∧
      events.count (LMEvent.notified l (normalizeLocale code)) = 1) ∧
    l ∉ (unsubscribe (subscribe (subscribe st l) l) l).listeners := by
  have hmem : l ∈ (subscribe st l).listeners := by
    unfold subscribe
    by_cases h : l ∈ st.listeners <;> simp [h]
  have hsubL : ∀ (s : LMState) (x : Nat), (subscribe s x).listeners =
      if x ∈ s.listeners then s.listeners else s.listeners ++ [x] := fun _ _ => rfl
  have hidem : (subscribe (subscribe st l) l).listeners = (subscribe st l).listeners := by
    rw [hsubL (subscribe st l) l, if_pos hmem]
  have hnd1 : (subscribe st l).listeners.Nodup := by
    unfold subscribe
    by_cases h : l ∈ st.listeners
    · simpa [h] using hnd
    · simp only [h, if_neg, not_false_iff]
      exact List.Nodup.append hnd (List.nodup_singleton l) (by simpa using h)
  have hcount : (subscribe (subscribe st l) l).listeners.count l = 1 := by
    rw [hidem]
    exact List.count_eq_one_of_mem hnd1 hmem
  refine ⟨hidem, ?_, ?_⟩
  · have hsup' : localeSupported (normalizeLocale code)
        (subscribe (subscribe st l) l).supportedLocales = true := by
      unfold localeSupported at hsup ⊢
      rw [normalizeLocale_idem]
      simpa [subscribe] using hsup
    have hcur : (subscribe (subscribe st l) l).currentLocale = st.currentLocale := rfl
    refine ⟨{ subscribe (subscribe st l) l with currentLocale := normalizeLocale code },
      .persistAttempt (normalizeLocale code) ::
        (subscribe (subscribe st l) l).listeners.map
          (fun i => .notified i (normalizeLocale code)), ?_, ?_⟩
    · unfold setLocale
      rw [if_neg (by simp [hsup']), if_neg (by rw [hcur]; exact hne)]
    · simp only [List.count_cons]
      rw [count_notified_map, hcount]
      simp
  · have herase : (unsubscribe (subscribe (subscribe st l) l) l).listeners =
        (subscribe (subscribe st l) l).listeners.erase l := rfl
    rw [herase, hidem]
    exact fun h => ((List.Nodup.mem_erase_iff hnd1).mp h).1 rfl

/-- Witness for `subscribe_set_semantics`: one listener subscribed twice, a
locale change from `en` to `fr`. -/
theorem subscribe_set_semantics_witness :
    (subscribe (subscribe ⟨"en", ["en", "fr"], "en", []⟩ 7) 7).listeners =
      (subscribe ⟨"en", ["en", "fr"], "en", []⟩ 7).listeners ∧
    (∃ st' events,
      setLocale (subscribe (subscribe ⟨"en", ["en", "fr"], "en", []⟩ 7) 7) "fr" =
        .ok (st', events) ∧
      events.count (LMEvent.notified 7 (normalizeLocale "fr")) = 1) ∧
    7 ∉ (unsubscribe (subscribe (subscribe ⟨"en", ["en", "fr"], "en", []⟩ 7) 7) 7).listeners :=
  subscribe_set_semantics ⟨"en", ["en", "fr"], "en", []⟩ 7 "fr"
    (by decide) (by decide) (by decide)

/-! ## Pluralizer (`src/core/pluralizer.ts`) -/

/-- JS `parseInt(s, 10)` as used on interval-key pieces: the leading digit
run, `NaN` (`none`) when there is none. -/
def jsParseInt (s : String) : Option Nat :=
  let ds := s.toList.takeWhile Char.isDigit
  if ds.isEmpty then none else some (digitsToNat ds)

/-- `Pluralizer.isIntervalKey`: `/^\d+-\d+$/` or `/^\d+\+$/`. -/
def isIntervalKey (k : String) : Bool :=
  let (d1, rest) := k.toList.span Char.isDigit
  !d1.isEmpty &&
    (match rest with
     | ['+'] => true
     | '-' :: d2 => !d2.isEmpty && d2.all Char.isDigit
     | _ => false)

/-- `Pluralizer.matchesInterval`: `X+` means `count ≥ X`; `X-Y` means
`X ≤ count ≤ Y`; a `NaN` bound never compares true. -/
def matchesInterval (count : Int) (interval : String) : Bool :=
  if interval.toList.getLast? = some '+' then
    match jsParseInt ⟨interval.toList.dropLast⟩ with
    | some mn => (mn : Int) ≤ count
    | none => false
  else if '-' ∈ interval.toList then
    match jsSplit (fun c => c = '-') interval with
    | minStr :: maxStr :: _ =>
      if minStr ≠ "" ∧ maxStr ≠ "" then
        match jsParseInt minStr, jsParseInt maxStr with
        | some mn, some mx => (mn : Int) ≤ count ∧ count ≤ (mx : Int)
        | _, _ => false
      else false
    | _ => false
  else false

/-- The `for key in translations` interval scan of
`tryIntervalPluralization`, in property order. -/
def scanIntervals (count : Int) : List (String × TransValue) → Option String
  | [] => none
  | (k, v) :: rest =>
    if isIntervalKey k ∧ matchesInterval count k then some v.jsString
    else scanIntervals count rest

/-- `Pluralizer.tryIntervalPluralization`: exact `String(count)` key first,
then the first matching interval key. -/
def tryIntervalPluralization (count : Int) (translations : List (String × TransValue)) :
    Option String :=
  match lookupField translations (toString count) with
  | some v => some v.jsString
  | none => scanIntervals count translations

/-- `Pluralizer.selectPluralTranslation`: the CLDR form's value, else the
`other` value when the form is not already `other`, else `null`. -/
def selectPluralTranslation (locale : String) (count : Int)
    (translations : List (String × TransValue)) (ordinal : Bool) : Option String :=
  let form := getPluralForm locale count ordinal
  match lookupField translations form.name with
  | some v => some v.jsString
  | none =>
    if form ≠ .other then
      match lookupField translations "other" with
      | some v => some v.jsString
      | none => none
    else none

/-- JS `x || d` for a nullable string `x`: both `null` and `""` are falsy. -/
def jsOrDefault (o : Option String) (d : String) : String :=
  match o with
  | some r => if r = "" then d else r
  | none => d

/-- `Pluralizer.pluralize`: interval override, then the grammatical-context
block (`context && translations[context]` truthy and `typeof === 'object'`),
then standard CLDR selection with the `|| String(count)` default. -/
def pluralize (locale : String) (count : Int) (translations : List (String × TransValue))
    (ordinal : Bool) (context : Option String) : String :=
  match tryIntervalPluralization count translations with
  | some r => r
  | none =>
    let ctxResult : Option String :=
      match context with
      | some c =>
        if c ≠ "" then
          match lookupField translations c with
          | some v =>
            if v.truthy then
              match v with
              | .obj inner => selectPluralTranslation locale count inner ordinal
              | .str _ => none
            else none
          | none => none
        else none
      | none => none
    match ctxResult with
    | some r => r
    | none => jsOrDefault (selectPluralTranslation locale count translations ordinal)
        (toString count)

/-- Stage (1) as the claim states it: the key exactly equal to
`String(count)`, otherwise the first interval key whose range contains the
count. -/
def exactOrIntervalOverride (count : Int) (forms : List (String × TransValue)) :
    Option String :=
  match lookupField forms (toString count) with
  | some v => some v.jsString
  | none =>
    (forms.find? (fun kv => isIntervalKey kv.1 && matchesInterval count kv.1)).map
      (fun kv => kv.2.jsString)

/-- Stage (2) as the claim states it: when a (non-empty, per JS truthiness)
context is supplied and the context key holds an object, CLDR-form selection
recurses into that object with the same count and ordinal — with no interval
check at the inner level. -/
def contextSelection (locale : String) (count : Int)
    (forms : List (String × TransValue)) (ordinal : Bool) (context : Option String) :
    Option String :=
  match context with
  | some c =>
    if c ≠ "" then
      match lookupField forms c with
      | some (.obj inner) => selectPluralTranslation locale count inner ordinal
      | _ => none
    else none
  | none => none

theorem scanIntervals_eq_find (count : Int) (forms : List (String × TransValue)) :
    scanIntervals count forms =
      (forms.find? (fun kv => isIntervalKey kv.1 && matchesInterval count kv.1)).map
        (fun kv => kv.2.jsString) := by
  induction forms with
  | nil => rfl
  | cons hd tl ih =>
    obtain ⟨k, v⟩ := hd
    by_cases h : (isIntervalKey k && matchesInterval count k) = true
    · simp only [scanIntervals, List.find?_cons, h]
      rw [if_pos (by simpa using h)]
      rfl
    · simp only [scanIntervals, List.find?_cons, h]
      rw [if_neg (by simpa using h)]
      exact ih

theorem tryInterval_eq_override (count : Int) (forms : List (String × TransValue)) :
    tryIntervalPluralization count forms = exactOrIntervalOverride count forms := by
  unfold tryIntervalPluralization exactOrIntervalOverride
  match lookupField forms (toString count) with
  | some v => rfl
  | none => exact scanIntervals_eq_find count forms

/-- C4: `pluralize` resolves in the claimed fixed order with first match
winning — (1) exact `String(count)` key, else first containing interval key;
(2) recursion of CLDR-form selection into a supplied context's object, with
no interval check at the inner level; (3) CLDR form selection on the outer
object (whose `|| String(count)` default also replaces an empty-string
selection, by JS falsiness). -/
theorem pluralize_resolution_order (locale : String) (count : Int)
    (forms : List (String × TransValue)) (ordinal : Bool) (context : Option String) :
    pluralize locale count forms ordinal context =
      match exactOrIntervalOverride count forms with
      | some r => r
      | none =>
        match contextSelection locale count forms ordinal context with
        | some r => r
        | none => jsOrDefault (selectPluralTranslation locale count forms ordinal)
            (toString count) := by
  unfold pluralize
  rw [tryInterval_eq_override]
  match exactOrIntervalOverride count forms with
  | some r => rfl
  | none =>
    have hctx : (match context with
        | some c =>
          if c ≠ "" then
            match lookupField forms c with
            | some v =>
              if v.truthy then
                match v with
                | .obj inner => selectPluralTranslation locale count inner ordinal
                | .str _ => none
              else none
            | none => none
          else none
        | none => none) =
        contextSelection locale count forms ordinal context := by
      unfold contextSelection
      cases context with
      | none => rfl
      | some c =>
        by_cases hc : c = ""
        · simp [hc]
        · simp only [ne_eq, hc, not_false_iff, if_true]
          cases hlf : lookupField forms c with
          | none => rfl
          | some v =>
            cases v with
            | obj inner => rfl
            | str s =>
              by_cases hs : s = "" <;> simp [TransValue.truthy, hs]
    rw [hctx]

/-! ## Interpolator (`Interpolator` class, default `{{` `}}` delimiters)

With the default configuration the compiled pattern is
`/\{\{\s*([^}]+?)\s*\}\}/g`: a match is `{{`, a non-empty run of
non-`}` characters, then `}}`; `replace` scans left to right, advancing one
character when no match starts at the current position.  The callback trims
the captured path, resolves it in the value bag, keeps the entire original
match when the value is `undefined` or `null`, and otherwise stringifies
(escaping HTML when enabled). -/

/-- A JS value in an interpolation bag. -/
inductive JValue where
  | str (s : String)
  | num (n : Int)
  | bool (b : Bool)
  | null
  | obj (fields : List (String × JValue))

/-- JS `String(v)` on a bag value. -/
def JValue.jsString : JValue → String
  | .str s => s
  | .num n => toString n
  | .bool b => if b then "true" else "false"
  | .null => "null"
  | .obj _ => "[object Object]"

/-- `Interpolator.resolveNestedValue`: the descent loop over dot segments
(`null`, `undefined` and non-object intermediates fail). -/
def descendJ : Option JValue → List String → Option JValue
  | cur, [] => cur
  | some (.obj fields), k :: rest => descendJ (alistGet fields k) rest
  | _, _ :: _ => none

/-- `resolveNestedValue(obj, path)`: empty path fails at once. -/
def resolveNested (values : List (String × JValue)) (path : String) : Option JValue :=
  if path = "" then none
  else descendJ (some (.obj values)) (dotSegs path)

/-- The callback's missing test: `value === undefined || value === null`. -/
def isMissingValue : Option JValue → Bool
  | none => true
  | some .null => true
  | some _ => false

/-- `Interpolator.escapeHtml`, one character. -/
def escapeHtmlChar (c : Char) : List Char :=
  if c = '&' then "&amp;".toList
  else if c = '<' then "&lt;".toList
  else if c = '>' then "&gt;".toList
  else if c = '"' then "&quot;".toList
  else if c = '\'' then "&#39;".toList
  else if c = '/' then "&#x2F;".toList
  else [c]

/-- `Interpolator.escapeHtml`. -/
def escapeHtmlList (cs : List Char) : List Char :=
  (cs.map escapeHtmlChar).flatten

/-- One parsed piece of a template: a literal character, or a placeholder
with the raw text between the delimiters. -/
inductive Seg where
  | lit (c : Char)
  | ph (content : List Char)
  deriving DecidableEq, Repr

/-- Try to match the placeholder pattern at the current position:
`{{`, a non-empty run of non-`}` characters, then `}}`. -/
def tryPh : List Char → Option (List Char × List Char)
  | '{' :: '{' :: r =>
    match r.span (fun c => c ≠ '}') with
    | (content, '}' :: '}' :: r2) => if content.isEmpty then none else some (content, r2)
    | _ => none
  | _ => none

/-- The global left-to-right scan of `String.prototype.replace`; the fuel is
the remaining length, so the recursion is structural. -/
def scanAux : Nat → List Char → List Seg
  | 0, _ => []
  | _ + 1, [] => []
  | fuel + 1, c :: rest =>
    match tryPh (c :: rest) with
    | some (content, r2) => .ph content :: scanAux fuel r2
    | none => .lit c :: scanAux fuel rest

/-- Parse a template into literal characters and placeholders. -/
def scanTemplate (cs : List Char) : List Seg := scanAux cs.length cs

/-- The original matched text of a placeholder, `{{` + content + `}}`. -/
def phText (content : List Char) : List Char :=
  '{' :: '{' :: (content ++ ['}', '}'])

/-- The replacement callback of `replaceVariables`: a placeholder whose
trimmed path resolves to `undefined`/`null` stays verbatim; any other value
is stringified and, when enabled, HTML-escaped. -/
def renderSeg (values : List (String × JValue)) (escapeValue : Bool) : Seg → List Char
  | .lit c => [c]
  | .ph content =>
    match resolveNested values ⟨jsTrim content⟩ with
    | none => phText content
    | some .null => phText content
    | some w =>
      if escapeValue then escapeHtmlList w.jsString.toList else w.jsString.toList

/-- `Interpolator.replaceVariables`. -/
def replaceVariables (escapeValue : Bool) (template : String)
    (values : List (String × JValue)) : String :=
  ⟨((scanTemplate template.toList).map (renderSeg values escapeValue)).flatten⟩

/-- `Interpolator.interpolate`: `if (!template) return template`. -/
def interpolate (escapeValue : Bool) (template : String)
    (values : List (String × JValue)) : String :=
  if template = "" then template else replaceVariables escapeValue template values

theorem join_map_mem {α β : Type} (f : α → List β) (l : List α) (x : α)
    (hx : x ∈ l) : ∃ before after, (l.map f).flatten = before ++ f x ++ after := by
  induction l with
  | nil => cases hx
  | cons hd tl ih =>
    rcases List.mem_cons.mp hx with h | h
    · subst h
      exact ⟨[], (tl.map f).flatten, by simp⟩
    · obtain ⟨before, after, hba⟩ := ih h
      exact ⟨f hd ++ before, after, by simp [hba]⟩

/-- C7: a delimiter-bounded placeholder whose trimmed dot-path resolves to
`null` or `undefined` appears verbatim — the original placeholder text — in
`interpolate`'s output. -/
theorem interpolate_preserves_missing (escapeValue : Bool) (template : String)
    (values : List (String × JValue)) (content : List Char)
    (hmem : Seg.ph content ∈ scanTemplate template.toList)
    (hmiss : isMissingValue (resolveNested values ⟨jsTrim content⟩) = true) :
    ∃ before after, (interpolate escapeValue template values).toList =
      before ++ phText content ++ after := by
  have hne : template ≠ "" := by
    intro h
    rw [h] at hmem
    cases hmem
  have hrender : renderSeg values escapeValue (Seg.ph content) = phText content := by
    cases hres : resolveNested values ⟨jsTrim content⟩ with
    | none => simp only [renderSeg, hres]
    | some w =>
      cases w with
      | null => simp only [renderSeg, hres]
      | str s => rw [hres] at hmiss; exact absurd hmiss (by simp [isMissingValue])
      | num n => rw [hres] at hmiss; exact absurd hmiss (by simp [isMissingValue])
      | bool b => rw [hres] at hmiss; exact absurd hmiss (by simp [isMissingValue])
      | obj fs => rw [hres] at hmiss; exact absurd hmiss (by simp [isMissingValue])
  obtain ⟨before, after, hba⟩ :=
    join_map_mem (renderSeg values escapeValue) (scanTemplate template.toList)
      (Seg.ph content) hmem
  refine ⟨before, after, ?_⟩
  rw [interpolate, if_neg hne]
  unfold replaceVariables
  rw [toList_mk, hba, hrender]

/-- Witness for `interpolate_preserves_missing`, including the claim's
concrete instance: `interpolate('Hello {{name}}', {})` returns the template
with the placeholder intact. -/
theorem interpolate_preserves_missing_witness :
    Seg.ph ['n', 'a', 'm', 'e'] ∈ scanTemplate "Hello {{name}}".toList ∧
    (∃ before after, (interpolate true "Hello {{name}}" []).toList =
      before ++ phText ['n', 'a', 'm', 'e'] ++ after) ∧
    interpolate true "Hello {{name}}" [] = "Hello {{name}}" :=
  ⟨by decide,
   interpolate_preserves_missing true "Hello {{name}}" [] ['n', 'a', 'm', 'e']
     (by decide) rfl,
   rfl⟩

/-! ## Translator (`src/core/translator.ts`) -/

/-- `TranslationOptions`: the reserved option properties, plus `extra`, the
remaining own enumerable properties in insertion order (the loop in
`extractInterpolationVars` collects exactly those). -/
structure TranslationOptions where
  count : Option Int := none
  ordinal : Option Bool := none
  context : Option String := none
  defaultValue : Option String := none
  ns : Option String := none
  interpolation : Option (List (String × JValue)) := none
  extra : List (String × JValue) := []

/-- The Translator's configuration: `config.defaultNamespace ?? 'common'`,
the optional fallback locale, and the injected Interpolator's escape flag. -/
structure TranslatorConfig where
  defaultNamespace : String := "common"
  fallbackLocale : Option String := none
  escapeValue : Bool := true

/-- `Translator.extractInterpolationVars`: `options.interpolation` when
truthy (any object is), otherwise the non-reserved properties when there is
at least one (calling with no options behaves like empty options). -/
def extractInterpolationVars (opts : TranslationOptions) :
    Option (List (String × JValue)) :=
  match opts.interpolation with
  | some vars => some vars
  | none => if opts.extra.isEmpty then none else some opts.extra

/-- `{...interpolationVars, count: options.count}`: a spread keeps an
existing `count` property in place with the new value, otherwise appends it. -/
def spreadWithCount (vars : List (String × JValue)) (c : Int) :
    List (String × JValue) :=
  alistSet vars "count" (.num c)

/-- `Translator.resolvePluralKey` (invoked only when `options.count` is
defined): `if (!rawData) return null` treats both an uncached key and a
cached empty string as unresolved; a string skips pluralization; an object
goes through the Pluralizer; either way the result is interpolated with the
count injected. -/
def resolvePluralKeyT (cfg : TranslatorConfig) (st : StoreState)
    (locale key ns : String) (opts : TranslationOptions) : Option String :=
  match getRawData st locale ns key with
  | none => none
  | some v =>
    if ¬ v.truthy then none
    else
      let vars := extractInterpolationVars opts
      match v with
      | .str s =>
        if vars.isSome ∨ opts.count.isSome then
          some (interpolate cfg.escapeValue s
            (spreadWithCount (vars.getD []) (opts.count.getD 0)))
        else some s
      | .obj fields =>
        let pluralTranslation :=
          pluralize locale (opts.count.getD 0) fields (opts.ordinal.getD false)
            opts.context
        if vars.isSome ∨ opts.count.isSome then
          some (interpolate cfg.escapeValue pluralTranslation
            (spreadWithCount (vars.getD []) (opts.count.getD 0)))
        else some pluralTranslation

/-- `Translator.resolveKey`: plural path when a count is present (raw reads
do not touch the ledger), otherwise `getTranslation` followed by
interpolation when there is a non-empty variable bag. -/
def resolveKeyT (cfg : TranslatorConfig) (st : StoreState)
    (locale key ns : String) (opts : TranslationOptions) :
    Option String × StoreState :=
  if opts.count.isSome then
    (resolvePluralKeyT cfg st locale key ns opts, st)
  else
    let r := getTranslation st locale ns key
    match r.1 with
    | none => (none, r.2)
    | some t =>
      match extractInterpolationVars opts with
      | some vars =>
        if vars.length > 0 then
          (some (interpolate cfg.escapeValue t vars), r.2)
        else (some t, r.2)
      | none => (some t, r.2)

/-- `Translator.applyFallback`: `if (options?.defaultValue)` — JS truthiness,
so an empty-string default falls through to the literal key. -/
def applyFallback (key : String) (opts : TranslationOptions) : String :=
  match opts.defaultValue with
  | some d => if d ≠ "" then d else key
  | none => key

/-- `Translator.translate`: resolve at the requested locale; on `null`, retry
once at the configured fallback locale when it is truthy and differs from
the requested one; on `null` again, `applyFallback`. -/
def translate (cfg : TranslatorConfig) (st : StoreState) (locale key : String)
    (opts : TranslationOptions) : String × StoreState :=
  let ns := opts.ns.getD cfg.defaultNamespace
  let r1 := resolveKeyT cfg st locale key ns opts
  match r1.1 with
  | some t => (t, r1.2)
  | none =>
    match cfg.fallbackLocale with
    | some fb =>
      if fb ≠ "" ∧ fb ≠ locale then
        let r2 := resolveKeyT cfg r1.2 fb key ns opts
        match r2.1 with
        | some t => (t, r2.2)
        | none => (applyFallback key opts, r2.2)
      else (applyFallback key opts, r1.2)
    | none => (applyFallback key opts, r1.2)

/-- The key is unresolved at the requested locale, and also at the fallback
locale whenever the fallback retry would run. -/
def unresolvedBothLocales (cfg : TranslatorConfig) (st : StoreState)
    (locale key : String) (opts : TranslationOptions) : Prop :=
  let ns := opts.ns.getD cfg.defaultNamespace
  (resolveKeyT cfg st locale key ns opts).1 = none ∧
  (match cfg.fallbackLocale with
   | some fb =>
     (resolveKeyT cfg (resolveKeyT cfg st locale key ns opts).2 fb key ns opts).1 = none
   | none => True)

/-- Counterexample to C1 as stated: with the key unresolved everywhere and
`defaultValue` supplied as the empty string, `translate` returns the literal
key, not the supplied default (`if (options?.defaultValue)` is a JS
truthiness test, and `""` is falsy). -/
theorem translate_empty_default_cex :
    ({ defaultValue := some "" } : TranslationOptions).defaultValue = some "" ∧
    unresolvedBothLocales {} StoreState.init "en" "greeting"
      { defaultValue := some "" } ∧
    (translate {} StoreState.init "en" "greeting" { defaultValue := some "" }).1 =
      "greeting" ∧
    "greeting" ≠ "" := by
  refine ⟨rfl, ⟨rfl, trivial⟩, rfl, by decide⟩

/-- C1 (amended): whenever the key is unresolved in both the requested and
the fallback locale, `translate` returns `options.defaultValue` when a
non-empty default is supplied, and the literal key when the default is
absent or empty. -/
theorem translate_unresolved_returns_default (cfg : TranslatorConfig)
    (st : StoreState) (locale key : String) (opts : TranslationOptions)
    (h : unresolvedBothLocales cfg st locale key opts) :
    (translate cfg st locale key opts).1 =
      match opts.defaultValue with
      | some d => if d = "" then key else d
      | none => key := by
  obtain ⟨h1, h2⟩ := h
  have happly : applyFallback key opts =
      match opts.defaultValue with
      | some d => if d = "" then key else d
      | none => key := by
    unfold applyFallback
    match opts.defaultValue with
    | none => rfl
    | some d =>
      by_cases hd : d = ""
      · simp [hd]
      · simp [hd]
  simp only [translate, h1]
  cases hfb : cfg.fallbackLocale with
  | none => simpa using happly
  | some fb =>
    rw [hfb] at h2
    have h2' : (resolveKeyT cfg
        (resolveKeyT cfg st locale key (opts.ns.getD cfg.defaultNamespace) opts).2 fb key
        (opts.ns.getD cfg.defaultNamespace) opts).1 = none := h2
    by_cases hcond : fb ≠ "" ∧ fb ≠ locale
    · simp only [if_pos hcond, h2']
      simpa using happly
    · simp only [if_neg hcond]
      simpa using happly

/-- Witness for `translate_unresolved_returns_default`: empty store, a
configured distinct fallback locale, and a non-empty default. -/
theorem translate_unresolved_returns_default_witness :
    unresolvedBothLocales ⟨"common", some "fr", true⟩ StoreState.init "en" "greeting"
      { defaultValue := some "Hi" } ∧
    (translate ⟨"common", some "fr", true⟩ StoreState.init "en" "greeting"
      { defaultValue := some "Hi" }).1 = "Hi" :=
  ⟨⟨rfl, rfl⟩,
   by
    rw [translate_unresolved_returns_default ⟨"common", some "fr", true⟩
      StoreState.init "en" "greeting" { defaultValue := some "Hi" } ⟨rfl, rfl⟩]
    decide⟩

/-- C8: when `options.count` is defined and the raw value cached at the key
is the empty string, `translate` treats the key as unresolved at that locale
(`if (!rawData)` — the empty string is falsy): resolution returns `null`
with no store change, and the final result is produced by the fallback
chain — the fallback locale's resolution or `applyFallback` — never the
cached empty string. -/
theorem translate_empty_cached_plural (cfg : TranslatorConfig) (st : StoreState)
    (locale key : String) (opts : TranslationOptions) (c : Int)
    (hcount : opts.count = some c)
    (hraw : getRawData st locale (opts.ns.getD cfg.defaultNamespace) key =
      some (.str "")) :
    resolveKeyT cfg st locale key (opts.ns.getD cfg.defaultNamespace) opts =
      (none, st) ∧
    translate cfg st locale key opts =
      (match cfg.fallbackLocale with
       | some fb =>
         if fb ≠ "" ∧ fb ≠ locale then
           match (resolveKeyT cfg st fb key (opts.ns.getD cfg.defaultNamespace) opts).1 with
           | some t => (t, (resolveKeyT cfg st fb key (opts.ns.getD cfg.defaultNamespace) opts).2)
           | none => (applyFallback key opts,
               (resolveKeyT cfg st fb key (opts.ns.getD cfg.defaultNamespace) opts).2)
         else (applyFallback key opts, st)
       | none => (applyFallback key opts, st)) := by
  have h1 : resolveKeyT cfg st locale key (opts.ns.getD cfg.defaultNamespace) opts =
      (none, st) := by
    unfold resolveKeyT
    rw [if_pos (by rw [hcount]; rfl)]
    unfold resolvePluralKeyT
    rw [hraw]
    simp [TransValue.truthy]
  refine ⟨h1, ?_⟩
  simp only [translate]
  rw [h1]

/-- Witness for `translate_empty_cached_plural`: an empty string cached at
`msg`, a count supplied, a fallback locale with nothing cached — the result
is the literal key, not the cached empty string. -/
theorem translate_empty_cached_plural_witness :
    getRawData ⟨[("en", [("common", [("msg", .str "")])])], [], []⟩ "en" "common" "msg" =
      some (.str "") ∧
    resolveKeyT ⟨"common", some "fr", true⟩
      ⟨[("en", [("common", [("msg", .str "")])])], [], []⟩ "en" "msg" "common"
      { count := some 2 } =
      (none, ⟨[("en", [("common", [("msg", .str "")])])], [], []⟩) ∧
    (translate ⟨"common", some "fr", true⟩
      ⟨[("en", [("common", [("msg", .str "")])])], [], []⟩ "en" "msg"
      { count := some 2 }).1 = "msg" := by
  have h := translate_empty_cached_plural ⟨"common", some "fr", true⟩
    ⟨[("en", [("common", [("msg", .str "")])])], [], []⟩ "en" "msg"
    { count := some 2 } 2 rfl rfl
  exact ⟨rfl, h.1, by rw [h.2]; rfl⟩

end G11n
